import Mathlib

/-!
Shallow embedding of `prompt_agent.py` (class `PromptAgent`): the spec
parser, the character-combination generator, the prompt renderer and the
batch orchestrator, together with theorems checking the claims that the
specification makes about them.

The global Python `random` generator is modelled by a `RandGen` state: an
infinite stream of naturals plus a position.  Python exceptions are
modelled with `Except String`.
-/

/-- Model of the process-wide pseudo-random generator: an oracle stream of
naturals and the current position in it. -/
structure RandGen where
  bits : Nat → Nat
  pos : Nat

/-- Advance the generator by one draw. -/
def RandGen.next (g : RandGen) : Nat × RandGen :=
  (g.bits g.pos, ⟨g.bits, g.pos + 1⟩)

/-- Model of `random.randint(lo, hi)`: a uniform draw from `[lo, hi]`; raises
`ValueError` when the range is empty (`lo > hi`). -/
def randint (lo hi : Nat) (g : RandGen) : Except String (Nat × RandGen) :=
  if hi < lo then .error "ValueError: empty range for randrange"
  else
    let (n, g') := g.next
    .ok (lo + n % (hi - lo + 1), g')

/-- Core of `random.sample(pool, k)`: draw `k` elements without
replacement, each draw picking a position in the remaining pool from the
oracle.  When the pool runs out early it stops (the caller only ever asks
for `k ≤ pool.length`). -/
def sampleAux : Nat → List String → RandGen → List String × RandGen
  | 0, _, g => ([], g)
  | _ + 1, [], g => ([], g)
  | k + 1, x :: xs, g =>
    let (n, g1) := g.next
    let i := n % (x :: xs).length
    let chosen := (x :: xs).getD i x
    let (others, g2) := sampleAux k ((x :: xs).eraseIdx i) g1
    (chosen :: others, g2)

/-- Model of `random.sample(pool, k)`: raises `ValueError` when `k > len(pool)`. -/
def random_sample (pool : List String) (k : Nat) (g : RandGen) :
    Except String (List String × RandGen) :=
  if pool.length < k then .error "ValueError: sample larger than population"
  else .ok (sampleAux k pool g)

/-- Display attributes of one catalog character (`character_themes` values). -/
structure CharacterTheme where
  colors : List String
  props : List String
  style : String
  personality : String
deriving Repr, DecidableEq

/-- Embedding of `self.character_themes`: the static character catalog, in insertion
order (Python dicts preserve insertion order). -/
def character_themes : List (String × CharacterTheme) := [
  ("Ballerina Cappuccina",
    ⟨["pink", "rose gold", "white"], ["tutu", "ballet shoes", "tiara", "ribbons"],
     "elegant and graceful", "graceful"⟩),
  ("Stick",
    ⟨["brown", "wooden", "natural"], ["leaves", "twigs", "forest items"],
     "simple and natural", "down-to-earth"⟩),
  ("Tralalelo Tralala",
    ⟨["aqua-blue", "light blue", "grey"], ["sharks", "ocean items", "slime bucket"],
     "playful and oceanic", "playful"⟩),
  ("Cappuccino Assassino",
    ⟨["coffee brown", "cream", "dark espresso"], ["coffee cups", "steam", "cafe items"],
     "mysterious and caffeinated", "mysterious"⟩),
  ("Brr Brr Patapim",
    ⟨["icy blue", "white", "frost"], ["snowflakes", "ice crystals", "winter items"],
     "cool and refreshing", "cool"⟩),
  ("Alligator",
    ⟨["green", "swamp green", "muddy brown"], ["water plants", "logs", "swamp items"],
     "wild and reptilian", "wild"⟩),
  ("Elephant",
    ⟨["grey", "dusty brown", "earthy"], ["peanuts", "trees", "safari items"],
     "gentle and majestic", "gentle"⟩),
  ("Hippo",
    ⟨["purple", "lavender", "soft grey"], ["water lilies", "mud", "river items"],
     "chunky and lovable", "lovable"⟩),
  ("Orca",
    ⟨["black", "white", "icy-white"], ["waves", "ocean items", "fish"],
     "majestic and marine", "majestic"⟩),
  ("Pigeon",
    ⟨["soft-grey", "white", "blue-grey"], ["feathers", "city items", "breadcrumbs"],
     "urban and nimble", "nimble"⟩),
  ("Espressina",
    ⟨["dark brown", "coffee", "cream"], ["espresso cups", "steam", "coffee beans"],
     "energetic and caffeinated", "energetic"⟩),
  ("Chimpanzini",
    ⟨["brown", "tan", "jungle green"], ["bananas", "vines", "jungle items"],
     "playful and mischievous", "mischievous"⟩),
  ("Gusini",
    ⟨["white", "orange", "pond blue"], ["water drops", "pond items", "feathers"],
     "graceful and aquatic", "graceful"⟩),
  ("Teepot",
    ⟨["ceramic white", "steam blue", "warm brown"], ["tea cups", "steam", "tea leaves"],
     "warm and cozy", "cozy"⟩),
  ("Tung",
    ⟨["bright yellow", "energetic orange", "sunny"], ["musical notes", "rhythm items", "sound waves"],
     "rhythmic and energetic", "rhythmic"⟩),
  ("Fish",
    ⟨["ocean blue", "scale silver", "coral"], ["bubbles", "seaweed", "coral items"],
     "fluid and aquatic", "fluid"⟩),
  ("Hamster",
    ⟨["golden brown", "fluffy white", "cozy beige"], ["nuts", "wheel", "cozy bedding"],
     "cute and energetic", "energetic"⟩),
  ("Orange",
    ⟨["bright orange", "citrus yellow", "sunny"], ["citrus slices", "sunshine", "fresh items"],
     "bright and refreshing", "cheerful"⟩)]

/-- Embedding of `self.location_templates`, in insertion order. -/
def location_templates : List (String × String) := [
  ("bedroom", "bedroom"), ("kitchen", "kitchen"), ("park", "park"),
  ("forest", "forest"), ("city", "city"), ("beach", "beach"),
  ("classroom", "classroom"), ("garden", "garden"), ("ocean", "ocean"),
  ("pool", "pool"), ("mountain", "snowy mountain landscape")]

/-- Embedding of `self.action_templates`, in insertion order. -/
def action_templates : List (String × String) := [
  ("sleeping", "sleeping"), ("playing", "playing"), ("eating", "eating"),
  ("walking", "walking"), ("dancing", "dancing"), ("reading", "reading"),
  ("painting", "painting"), ("singing", "singing"), ("swimming", "swimming"),
  ("flying", "flying"), ("running", "running"), ("jumping", "jumping"),
  ("standing", "standing")]

/-- Python `dict.get(key, default)` on a string-to-string dict. -/
def dictGet (d : List (String × String)) (key default : String) : String :=
  match d.find? (fun p => p.1 == key) with
  | some p => p.2
  | none => default

/-- Python `key in self.character_themes`. -/
def knownChar (c : String) : Bool :=
  character_themes.any (fun p => p.1 == c)

/-- The digit/underscore body accepted by Python `int(...)` after the
optional sign: nonempty, starts and ends with a digit, single underscores
only between digits. -/
def pyDigitsOk : List Char → Bool
  | [] => false
  | [c] => c.isDigit
  | c :: '_' :: rest => c.isDigit && pyDigitsOk rest
  | c :: rest => c.isDigit && pyDigitsOk rest

/-- Numeric value of a digit/underscore body (underscores ignored). -/
def digitsVal (cs : List Char) : Nat :=
  (cs.filter Char.isDigit).foldl (fun a c => 10 * a + (c.toNat - '0'.toNat)) 0

/-- Python `int(s)`: strip whitespace, optional single sign, then a
digit/underscore body; `none` models the `ValueError`. -/
def python_int (s : String) : Option Int :=
  let cs := (s.data.dropWhile Char.isWhitespace).reverse.dropWhile Char.isWhitespace |>.reverse
  match cs with
  | '+' :: rest => if pyDigitsOk rest then some (digitsVal rest) else none
  | '-' :: rest => if pyDigitsOk rest then some (-(digitsVal rest : Int)) else none
  | rest => if pyDigitsOk rest then some (digitsVal rest) else none

/-- Result of `_parse_characters`: the `char_config` dict. -/
structure CharConfig where
  characters : List String
  mode : String
  distribution : String
  min_chars : Option Nat
  max_chars : Option Nat
deriving Repr, DecidableEq

/-- Result of `parse_input`: the parsed request dict. -/
structure SceneConfig where
  count : Int
  char_config : CharConfig
  actions : List String
  locations : List String
deriving Repr, DecidableEq

/-- Python `str.split(sep)` for a one-character separator: splits on every
occurrence, keeping empty pieces (never returns an empty list). -/
def pySplitCh (sep : Char) : List Char → List (List Char)
  | [] => [[]]
  | c :: rest =>
    if c == sep then [] :: pySplitCh sep rest
    else
      match pySplitCh sep rest with
      | h :: t => (c :: h) :: t
      | [] => [[c]]

/-- Python `str.strip()`. -/
def pyStrip (cs : List Char) : List Char :=
  ((cs.dropWhile Char.isWhitespace).reverse.dropWhile Char.isWhitespace).reverse

/-- Model of `[p.strip() for p in s.split(sep)]`. -/
def pySplitTrim (sep : Char) (s : String) : List String :=
  (pySplitCh sep s.data).map (fun cs => String.mk (pyStrip cs))

/-- Model of the regex match `\[(\d+)(?:-(\d+))?\](.+)`: an anchored match of the
leading bracket group.  Returns (group 1, group 2, group 3); group 3 is the
maximal run of non-newline characters after `]` and must be nonempty. -/
def matchCountSpec (cs : List Char) : Option (Nat × Option Nat × List Char) :=
  match cs with
  | '[' :: rest =>
    let ds := rest.takeWhile Char.isDigit
    let rest1 := rest.dropWhile Char.isDigit
    if ds.isEmpty then none
    else
      match rest1 with
      | ']' :: tail =>
        let grp3 := tail.takeWhile (fun c => c ≠ '\n')
        if grp3.isEmpty then none else some (digitsVal ds, none, grp3)
      | '-' :: rest2 =>
        let ds2 := rest2.takeWhile Char.isDigit
        let rest3 := rest2.dropWhile Char.isDigit
        if ds2.isEmpty then none
        else
          match rest3 with
          | ']' :: tail =>
            let grp3 := tail.takeWhile (fun c => c ≠ '\n')
            if grp3.isEmpty then none else some (digitsVal ds, some (digitsVal ds2), grp3)
          | _ => none
      | _ => none
  | _ => none

/-- Embedding of `PromptAgent._parse_characters`. -/
def parse_characters (characters_str : String) : CharConfig :=
  let bracket := matchCountSpec characters_str.data
  let min_chars : Option Nat :=
    match bracket with | some (mn, _, _) => some mn | none => none
  let max_chars : Option Nat :=
    match bracket with | some (mn, mx?, _) => some (mx?.getD mn) | none => none
  let chars_part : String :=
    match bracket with | some (_, _, tail) => String.mk tail | none => characters_str
  let distribution : String :=
    match bracket with | some _ => "count_specified" | none => "auto"
  let characters0 :=
    if chars_part.data.contains '+' then pySplitTrim '+' chars_part
    else pySplitTrim ',' chars_part
  let mode : String := if chars_part.data.contains '+' then "together" else "separate"
  let characters :=
    if characters0 == ["ALL"] then character_themes.map Prod.fst else characters0
  { characters, mode, distribution, min_chars, max_chars }

/-- Embedding of `PromptAgent.parse_input`: split on `|`, parse the count with
`int(...)`, then parse characters / actions / locations. -/
def parse_input (input_str : String) : Except String SceneConfig :=
  let parts := pySplitTrim '|' input_str
  if parts.length ≠ 4 then
    .error "ValueError: Format: count|characters|actions|locations"
  else
    match python_int (parts.getD 0 "") with
    | none => .error "ValueError: invalid literal for int"
    | some count =>
      let char_config := parse_characters (parts.getD 1 "")
      let actions := pySplitTrim ',' (parts.getD 2 "")
      let actions := if actions == ["RANDOM"] then action_templates.map Prod.fst else actions
      let locations := pySplitTrim ',' (parts.getD 3 "")
      let locations := if locations == ["RANDOM"] then location_templates.map Prod.fst else locations
      .ok { count, char_config, actions, locations }

/-- One entry of the instrumented generator trace: the grouping together
with the index of the pool epoch (number of pool resets so far) during
which it was drawn.  The epoch tag is bookkeeping only; dropping it gives
exactly the Python `combinations_list`. -/
abbrev TraceEntry := List String × Nat

/-- The removal loop
`for char in selected: if char in available_chars: available_chars.remove(char)`
(Python `list.remove` deletes the first occurrence). -/
def removeSelected (selected avail : List String) : List String :=
  selected.foldl (fun av c => if av.contains c then av.erase c else av) avail

/-- The count-specified branch (`distribution == "count_specified"`) of
`generate_character_combinations`, instrumented with the pool-epoch tag.
State: scenes remaining, `available_chars`, the generator, current epoch. -/
def genCS (chars : List String) (mn mx : Nat) :
    Nat → List String → RandGen → Nat → Except String (List TraceEntry × RandGen)
  | 0, _, g, _ => .ok ([], g)
  | remaining + 1, avail, g, epoch =>
    match (if mn == mx then .ok (mn, g) else randint mn mx g) with
    | .error e => .error e
    | .ok (char_count, g1) =>
      -- `if len(available_chars) < char_count: available_chars = characters[:]`
      let avail1 := if avail.length < char_count then chars else avail
      let epoch1 := if avail.length < char_count then epoch + 1 else epoch
      match random_sample avail1 (min char_count avail1.length) g1 with
      | .error e => .error e
      | .ok (selected, g2) =>
        match genCS chars mn mx remaining (removeSelected selected avail1) g2 epoch1 with
        | .ok (rest, g3) => .ok ((selected, epoch1) :: rest, g3)
        | .error e => .error e

/-- Embedding of `PromptAgent.generate_character_combinations`, instrumented with the
pool-epoch tag (together/auto groupings are all tagged with epoch 0). -/
def generate_character_combinations_traced (cfg : CharConfig) (count : Int)
    (g : RandGen) : Except String (List TraceEntry × RandGen) :=
  if cfg.mode == "together" then
    .ok (List.replicate count.toNat (cfg.characters, 0), g)
  else if cfg.mode == "separate" then
    if cfg.distribution == "count_specified" then
      match cfg.min_chars, cfg.max_chars with
      | some mn, some mx => genCS cfg.characters mn mx count.toNat cfg.characters g 0
      | _, _ => .error "TypeError: NoneType in comparison"
    else
      if cfg.characters.length == 0 then
        if count.toNat == 0 then .ok ([], g)
        else .error "ZeroDivisionError: integer modulo by zero"
      else
        .ok ((List.range count.toNat).map
          (fun i => ([cfg.characters.getD (i % cfg.characters.length) ""], 0)), g)
  else
    .ok ([], g)

/-- Embedding of `PromptAgent.generate_character_combinations`: the epoch tags dropped. -/
def generate_character_combinations (cfg : CharConfig) (count : Int)
    (g : RandGen) : Except String (List (List String) × RandGen) :=
  (generate_character_combinations_traced cfg count g).map
    (fun p => (p.1.map Prod.fst, p.2))

/-- Embedding of `PromptAgent._generate_single_character_prompt`. -/
def generate_single_character_prompt (character action location : String) : String :=
  if ¬ knownChar character then
    character ++ " " ++ action ++ " in " ++ location
  else
    let action_desc := dictGet action_templates action action
    let location_desc := dictGet location_templates location location
    character ++ " " ++ action_desc ++ " in " ++ location_desc

/-- Embedding of `PromptAgent._generate_multi_character_prompt`; `characters[-1]` on an
empty list raises `IndexError`. -/
def generate_multi_character_prompt (characters : List String)
    (action location : String) : Except String String :=
  if ¬ characters.all knownChar then
    .ok (String.intercalate " and " characters ++ " " ++ action ++ " in " ++ location)
  else
    match characters with
    | [] =>
      -- `len(characters) == 2` is false and `characters[-1]` raises.
      .error "IndexError: list index out of range"
    | a :: rest =>
      let char_phrase :=
        match rest with
        | [b] => a ++ " and " ++ b
        | _ => String.intercalate ", " characters.dropLast ++ ", and " ++ characters.getLastD ""
      let action_desc := dictGet action_templates action action
      let location_desc := dictGet location_templates location location
      .ok (char_phrase ++ " " ++ action_desc ++ " in " ++ location_desc)

/-- Embedding of `PromptAgent.generate_prompt`. -/
def generate_prompt (characters : List String) (action location : String) :
    Except String String :=
  if characters.length == 1 then
    .ok (generate_single_character_prompt (characters.getD 0 "") action location)
  else
    generate_multi_character_prompt characters action location

/-- The rendering loop of `generate_prompts_from_input`:
`for i, characters in enumerate(char_combinations)` with cyclic
action/location selection (`i % len` raises `ZeroDivisionError` on an
empty list, as in Python). -/
def renderAll (combos : List (List String)) (actions locations : List String)
    (i : Nat) : Except String (List String) :=
  match combos with
  | [] => .ok []
  | characters :: rest => do
    let action ←
      if actions.length == 0 then .error "ZeroDivisionError: integer modulo by zero"
      else .ok (actions.getD (i % actions.length) "")
    let location ←
      if locations.length == 0 then .error "ZeroDivisionError: integer modulo by zero"
      else .ok (locations.getD (i % locations.length) "")
    let prompt ← generate_prompt characters action location
    let prompts ← renderAll rest actions locations (i + 1)
    .ok (prompt :: prompts)

/-- The body of the `try:` block of `generate_prompts_from_input`:
parse, generate combinations, render each. -/
def pipeBody (input_str : String) (g : RandGen) :
    Except String (List String × RandGen) := do
  let config ← parse_input input_str
  let (char_combinations, g1) ←
    generate_character_combinations config.char_config config.count g
  let prompts ← renderAll char_combinations config.actions config.locations 0
  .ok (prompts, g1)

/-- Embedding of `PromptAgent.generate_prompts_from_input`: the `try/except Exception`
wrapper — any failure is logged and turned into an empty list.  (The
generator state on the failure path is returned unchanged; Python leaves
the global generator wherever the exception interrupted it, which no
caller observes.) -/
def generate_prompts_from_input (input_str : String) (g : RandGen) :
    List String × RandGen :=
  match pipeBody input_str g with
  | .ok r => r
  | .error _ => ([], g)

/-- A concrete oracle (all draws return 0) used to instantiate theorems on
concrete inputs. -/
def g0 : RandGen := ⟨fun _ => 0, 0⟩


/-! ### Helper lemmas -/

theorem sampleAux_cons (k : Nat) (x : String) (xs : List String) (g : RandGen) :
    sampleAux (k + 1) (x :: xs) g =
      ((x :: xs).getD (g.bits g.pos % (xs.length + 1)) x ::
        (sampleAux k ((x :: xs).eraseIdx (g.bits g.pos % (xs.length + 1))) ⟨g.bits, g.pos + 1⟩).1,
       (sampleAux k ((x :: xs).eraseIdx (g.bits g.pos % (xs.length + 1))) ⟨g.bits, g.pos + 1⟩).2) :=
  rfl

theorem removeSelected_cons (c : String) (cs avail : List String) :
    removeSelected (c :: cs) avail =
      removeSelected cs (if avail.contains c then avail.erase c else avail) :=
  rfl

theorem sampleAux_length (k : Nat) (pool : List String) (g : RandGen) :
    (sampleAux k pool g).1.length = min k pool.length := by
  induction k generalizing pool g with
  | zero => simp [sampleAux]
  | succ k ih =>
    match pool with
    | [] => simp [sampleAux]
    | x :: xs =>
      rw [sampleAux_cons]
      have hlt : g.bits g.pos % (xs.length + 1) < (x :: xs).length :=
        Nat.mod_lt _ (Nat.succ_pos _)
      simp only [List.length_cons, ih]
      rw [List.length_eraseIdx]
      simp only [List.length_cons]
      have hlt' : g.bits g.pos % (xs.length + 1) < xs.length + 1 :=
        Nat.mod_lt _ (Nat.succ_pos _)
      rw [if_pos hlt']
      omega

theorem sampleAux_subset (k : Nat) (pool : List String) (g : RandGen) :
    ∀ x ∈ (sampleAux k pool g).1, x ∈ pool := by
  induction k generalizing pool g with
  | zero => simp [sampleAux]
  | succ k ih =>
    match pool with
    | [] => simp [sampleAux]
    | y :: ys =>
      intro x hx
      rw [sampleAux_cons] at hx
      rcases List.mem_cons.mp hx with h | h
      · subst h
        have hlt : g.bits g.pos % (ys.length + 1) < (y :: ys).length :=
          Nat.mod_lt _ (Nat.succ_pos _)
        rw [List.getD_eq_getElem (y :: ys) y hlt]
        exact List.getElem_mem hlt
      · exact ((y :: ys).eraseIdx_sublist _).subset (ih _ _ _ h)

theorem sampleAux_nodup (k : Nat) (pool : List String) (g : RandGen)
    (hpool : pool.Nodup) : (sampleAux k pool g).1.Nodup := by
  induction k generalizing pool g with
  | zero => simp [sampleAux]
  | succ k ih =>
    match pool with
    | [] => simp [sampleAux]
    | y :: ys =>
      rw [sampleAux_cons]
      have hlt : g.bits g.pos % (ys.length + 1) < (y :: ys).length :=
        Nat.mod_lt _ (Nat.succ_pos _)
      rw [List.nodup_cons]
      constructor
      · intro hmem
        have hsub := sampleAux_subset k ((y :: ys).eraseIdx _) _ _ hmem
        rw [List.getD_eq_getElem (y :: ys) y hlt] at hsub
        rw [List.eraseIdx_eq_take_drop_succ] at hsub
        have hsplit : (y :: ys).take (g.bits g.pos % (ys.length + 1)) ++
            (y :: ys)[g.bits g.pos % (ys.length + 1)] ::
            (y :: ys).drop (g.bits g.pos % (ys.length + 1) + 1) = y :: ys := by
          rw [← List.drop_eq_getElem_cons hlt]
          exact List.take_append_drop ..
        have hnd := hpool
        rw [← hsplit] at hnd
        rcases List.mem_append.mp hsub with hL | hR
        · exact (List.disjoint_of_nodup_append hnd) hL (List.mem_cons_self _ _)
        · have := (List.nodup_append.mp hnd).2.1
          exact (List.nodup_cons.mp this).1 hR
      · exact ih _ _ (((y :: ys).eraseIdx_sublist _).nodup hpool)

theorem removeSelected_sublist (selected avail : List String) :
    (removeSelected selected avail).Sublist avail := by
  induction selected generalizing avail with
  | nil => exact List.Sublist.refl _
  | cons c cs ih =>
    rw [removeSelected_cons]
    by_cases h : avail.contains c
    · rw [if_pos h]
      exact (ih (avail.erase c)).trans (List.erase_sublist c avail)
    · rw [if_neg h]
      exact ih avail

theorem not_mem_removeSelected (selected avail : List String)
    (hnd : avail.Nodup) : ∀ c ∈ selected, c ∉ removeSelected selected avail := by
  induction selected generalizing avail with
  | nil => simp
  | cons c cs ih =>
    intro d hd
    rw [removeSelected_cons]
    rcases List.mem_cons.mp hd with rfl | hd
    · by_cases hc : avail.contains d
      · rw [if_pos hc]
        intro hmem
        exact hnd.not_mem_erase ((removeSelected_sublist cs (avail.erase d)).subset hmem)
      · rw [if_neg hc]
        intro hmem
        have := (removeSelected_sublist cs avail).subset hmem
        simp at hc
        exact hc this
    · by_cases hc : avail.contains c
      · rw [if_pos hc]
        exact ih (avail.erase c) ((List.erase_sublist c avail).nodup hnd) d hd
      · rw [if_neg hc]
        exact ih avail hnd d hd

theorem random_sample_min (pool : List String) (k : Nat) (g : RandGen) :
    random_sample pool (min k pool.length) g =
      .ok (sampleAux (min k pool.length) pool g) := by
  unfold random_sample
  rw [if_neg]
  omega

theorem genCS_succ_ok {chars : List String} {mn mx remaining : Nat}
    {avail : List String} {g : RandGen} {epoch : Nat} {T : List TraceEntry}
    {g' : RandGen}
    (h : genCS chars mn mx (remaining + 1) avail g epoch = .ok (T, g')) :
    ∃ cc g1,
      (if mn == mx then Except.ok (mn, g) else randint mn mx g) = .ok (cc, g1) ∧
      ∃ rest g3,
        genCS chars mn mx remaining
          (removeSelected
            (sampleAux (min cc (if avail.length < cc then chars else avail).length)
              (if avail.length < cc then chars else avail) g1).1
            (if avail.length < cc then chars else avail))
          (sampleAux (min cc (if avail.length < cc then chars else avail).length)
            (if avail.length < cc then chars else avail) g1).2
          (if avail.length < cc then epoch + 1 else epoch) = .ok (rest, g3) ∧
        T = ((sampleAux (min cc (if avail.length < cc then chars else avail).length)
              (if avail.length < cc then chars else avail) g1).1,
             if avail.length < cc then epoch + 1 else epoch) :: rest ∧ g' = g3 := by
  simp only [genCS] at h
  split at h
  · exact absurd h (by simp)
  · rename_i cc g1 heq
    refine ⟨cc, g1, heq, ?_⟩
    split at h
    · exact absurd h (by simp)
    · rename_i sel g2 heq2
      rw [random_sample_min] at heq2
      have hs : sel = (sampleAux (min cc (if avail.length < cc then chars else avail).length)
          (if avail.length < cc then chars else avail) g1).1 :=
        (congrArg Prod.fst (Except.ok.inj heq2)).symm
      have hg : g2 = (sampleAux (min cc (if avail.length < cc then chars else avail).length)
          (if avail.length < cc then chars else avail) g1).2 :=
        (congrArg Prod.snd (Except.ok.inj heq2)).symm
      subst hs
      subst hg
      split at h
      · rename_i rest g3 heq3
        have h' := Except.ok.inj h
        exact ⟨rest, g3, heq3, (congrArg Prod.fst h').symm, (congrArg Prod.snd h').symm⟩
      · exact absurd h (by simp)

theorem genCS_length (chars : List String) (mn mx : Nat) :
    ∀ (k : Nat) (avail : List String) (g : RandGen) (e : Nat)
      (T : List TraceEntry) (g' : RandGen),
      genCS chars mn mx k avail g e = .ok (T, g') → T.length = k := by
  intro k
  induction k with
  | zero =>
    intro avail g e T g' h
    simp only [genCS, Except.ok.injEq, Prod.mk.injEq] at h
    rw [← h.1]
    rfl
  | succ k ih =>
    intro avail g e T g' h
    obtain ⟨cc, g1, -, rest, g3, hrec, hT, -⟩ := genCS_succ_ok h
    subst hT
    simp [ih _ _ _ _ _ hrec]

theorem genCS_epoch_ge (chars : List String) (mn mx : Nat) :
    ∀ (k : Nat) (avail : List String) (g : RandGen) (e : Nat)
      (T : List TraceEntry) (g' : RandGen),
      genCS chars mn mx k avail g e = .ok (T, g') → ∀ p ∈ T, e ≤ p.2 := by
  intro k
  induction k with
  | zero =>
    intro avail g e T g' h p hp
    simp only [genCS, Except.ok.injEq, Prod.mk.injEq] at h
    rw [← h.1] at hp
    cases hp
  | succ k ih =>
    intro avail g e T g' h p hp
    obtain ⟨cc, g1, -, rest, g3, hrec, hT, -⟩ := genCS_succ_ok h
    subst hT
    rcases List.mem_cons.mp hp with rfl | hp'
    · by_cases hre : avail.length < cc
      · simp [hre]
      · simp [hre]
    · have := ih _ _ _ _ _ hrec p hp'
      by_cases hre : avail.length < cc
      · rw [if_pos hre] at this
        omega
      · rwa [if_neg hre] at this

theorem genCS_epoch_mem (chars : List String) (mn mx : Nat) :
    ∀ (k : Nat) (avail : List String) (g : RandGen) (e : Nat)
      (T : List TraceEntry) (g' : RandGen),
      genCS chars mn mx k avail g e = .ok (T, g') →
      ∀ p ∈ T, p.2 = e → ∀ x ∈ p.1, x ∈ avail := by
  intro k
  induction k with
  | zero =>
    intro avail g e T g' h p hp
    simp only [genCS, Except.ok.injEq, Prod.mk.injEq] at h
    rw [← h.1] at hp
    cases hp
  | succ k ih =>
    intro avail g e T g' h p hp hpe x hx
    obtain ⟨cc, g1, -, rest, g3, hrec, hT, -⟩ := genCS_succ_ok h
    subst hT
    by_cases hre : avail.length < cc
    · exfalso
      rcases List.mem_cons.mp hp with rfl | hp'
      · rw [if_pos hre] at hpe
        simp at hpe
        omega
      · have := genCS_epoch_ge chars mn mx _ _ _ _ _ _ hrec p hp'
        rw [if_pos hre] at this
        omega
    · simp only [if_neg hre] at hrec hp
      rcases List.mem_cons.mp hp with rfl | hp'
      · exact sampleAux_subset _ _ _ x hx
      · have := ih _ _ _ _ _ hrec p hp' hpe x hx
        exact (removeSelected_sublist _ _).subset this

theorem genCS_pairwise (chars : List String) (mn mx : Nat) (hchars : chars.Nodup) :
    ∀ (k : Nat) (avail : List String) (g : RandGen) (e : Nat)
      (T : List TraceEntry) (g' : RandGen), avail.Nodup →
      genCS chars mn mx k avail g e = .ok (T, g') →
      T.Pairwise (fun a b => a.2 = b.2 → ∀ x ∈ a.1, x ∉ b.1) := by
  intro k
  induction k with
  | zero =>
    intro avail g e T g' _ h
    simp only [genCS, Except.ok.injEq, Prod.mk.injEq] at h
    rw [← h.1]
    exact List.Pairwise.nil
  | succ k ih =>
    intro avail g e T g' hnd h
    obtain ⟨cc, g1, -, rest, g3, hrec, hT, -⟩ := genCS_succ_ok h
    subst hT
    have hnd1 : (if avail.length < cc then chars else avail).Nodup := by
      by_cases hre : avail.length < cc
      · rwa [if_pos hre]
      · rwa [if_neg hre]
    rw [List.pairwise_cons]
    refine ⟨?_, ih _ _ _ _ _ ((removeSelected_sublist _ _).nodup hnd1) hrec⟩
    intro b hb hEq x hxsel hxb
    have hxavail2 := genCS_epoch_mem chars mn mx _ _ _ _ _ _ hrec b hb hEq.symm x hxb
    exact not_mem_removeSelected _ _ hnd1 x hxsel hxavail2

theorem genCS_fixed_len (chars : List String) (n : Nat) :
    ∀ (k : Nat) (avail : List String) (g : RandGen) (e : Nat)
      (T : List TraceEntry) (g' : RandGen), avail.length ≤ chars.length →
      genCS chars n n k avail g e = .ok (T, g') →
      ∀ p ∈ T, p.1.length = min n chars.length := by
  intro k
  induction k with
  | zero =>
    intro avail g e T g' _ h p hp
    simp only [genCS, Except.ok.injEq, Prod.mk.injEq] at h
    rw [← h.1] at hp
    cases hp
  | succ k ih =>
    intro avail g e T g' hlen h p hp
    obtain ⟨cc, g1, hcc, rest, g3, hrec, hT, -⟩ := genCS_succ_ok h
    rw [if_pos (by simp)] at hcc
    have hccn : cc = n := (Prod.mk.injEq .. ▸ Except.ok.inj hcc).1.symm
    subst hccn
    subst hT
    have hlen1 : (if avail.length < cc then chars else avail).length ≤ chars.length := by
      by_cases hre : avail.length < cc
      · rw [if_pos hre]
      · rwa [if_neg hre]
    rcases List.mem_cons.mp hp with rfl | hp'
    · simp only [sampleAux_length]
      by_cases hre : avail.length < cc
      · simp only [if_pos hre]
        omega
      · simp only [if_neg hre]
        push_neg at hre
        omega
    · exact ih _ _ _ _ _ ((removeSelected_sublist _ _).length_le.trans hlen1) hrec p hp'

theorem traced_length (cfg : CharConfig) (count : Int) (g : RandGen)
    (T : List TraceEntry) (g' : RandGen)
    (hmode : cfg.mode = "together" ∨ cfg.mode = "separate")
    (h : generate_character_combinations_traced cfg count g = .ok (T, g')) :
    T.length = count.toNat := by
  unfold generate_character_combinations_traced at h
  rcases hmode with hm | hm
  · rw [hm] at h
    simp only [if_pos (by decide : (("together" : String) == "together") = true),
      Except.ok.injEq, Prod.mk.injEq] at h
    rw [← h.1]
    exact List.length_replicate ..
  · rw [hm] at h
    rw [if_neg (by decide), if_pos (by decide)] at h
    split at h
    · -- count_specified with both bounds present
      split at h
      · rename_i mn mx hbounds
        exact genCS_length _ _ _ _ _ _ _ _ _ h
      · cases h
    · -- auto branch
      split at h
      · split at h
        · rename_i hzero hcnt
          simp only [Except.ok.injEq, Prod.mk.injEq] at h
          rw [← h.1]
          simp only [List.length_nil]
          simp only [beq_iff_eq] at hcnt
          omega
        · cases h
      · simp only [Except.ok.injEq, Prod.mk.injEq] at h
        rw [← h.1]
        simp

theorem generate_combinations_length (cfg : CharConfig) (count : Int)
    (g : RandGen) (L : List (List String)) (g' : RandGen)
    (hmode : cfg.mode = "together" ∨ cfg.mode = "separate")
    (h : generate_character_combinations cfg count g = .ok (L, g')) :
    L.length = count.toNat := by
  unfold generate_character_combinations at h
  cases htr : generate_character_combinations_traced cfg count g with
  | error e => rw [htr] at h; cases h
  | ok p =>
    rw [htr] at h
    simp only [Except.map, Except.ok.injEq, Prod.mk.injEq] at h
    rw [← h.1, List.length_map]
    exact traced_length cfg count g p.1 p.2 hmode (by rw [htr])

theorem renderAll_length (combos : List (List String))
    (actions locations : List String) :
    ∀ (i : Nat) (prompts : List String),
      renderAll combos actions locations i = .ok prompts →
      prompts.length = combos.length := by
  induction combos with
  | nil =>
    intro i prompts h
    simp only [renderAll, Except.ok.injEq] at h
    rw [← h]
    rfl
  | cons c rest ih =>
    intro i prompts h
    simp only [renderAll] at h
    split at h
    · cases h
    · split at h
      · cases h
      · simp only [bind, Except.bind] at h
        cases hp : generate_prompt c (actions.getD (i % actions.length) "")
            (locations.getD (i % locations.length) "") with
        | error e => rw [hp] at h; cases h
        | ok prompt =>
          rw [hp] at h
          simp only [Except.bind] at h
          cases hr : renderAll rest actions locations (i + 1) with
          | error e => rw [hr] at h; cases h
          | ok ps =>
            rw [hr] at h
            simp only [Except.ok.injEq] at h
            rw [← h]
            simp [ih _ _ hr]

theorem parse_characters_mode (s : String) :
    (parse_characters s).mode = "together" ∨ (parse_characters s).mode = "separate" := by
  cases hb : matchCountSpec s.data with
  | none =>
    by_cases h : s.data.contains '+'
    · left
      simp only [parse_characters, hb]
      rw [if_pos h]
    · right
      simp only [parse_characters, hb]
      rw [if_neg h]
  | some p =>
    obtain ⟨mn, mx?, tail⟩ := p
    by_cases h : (String.mk tail).data.contains '+'
    · left
      simp only [parse_characters, hb]
      rw [if_pos h]
    · right
      simp only [parse_characters, hb]
      rw [if_neg h]


theorem parse_input_mode (s : String) (cfg : SceneConfig)
    (h : parse_input s = .ok cfg) :
    cfg.char_config.mode = "together" ∨ cfg.char_config.mode = "separate" := by
  unfold parse_input at h
  dsimp only at h
  split at h
  · cases h
  · split at h
    · cases h
    · simp only [Except.ok.injEq] at h
      rw [← h]
      exact parse_characters_mode _

/-! ### Claim theorems -/

/-- C2 (counterexample): rendering the zero-name grouping with action
`dancing` and location `garden` does not return `"dancing in garden"`
(it raises `IndexError`), so a zero-name grouping is not rendered as
`"{action} in {location}"`. -/
theorem render_empty_grouping_cex :
    generate_prompt [] "dancing" "garden" ≠ .ok "dancing in garden" :=
  fun h => nomatch h

/-- C2 (amended): for every action and location, rendering a zero-name
grouping fails with `IndexError` (from `characters[-1]`); no string is
returned. -/
theorem render_empty_grouping_raises (action location : String) :
    generate_prompt [] action location = .error "IndexError: list index out of range" :=
  rfl

/-- C5: `parse_input` fails exactly when the input does not split into four
`|`-delimited segments, or the first segment does not parse as a Python
integer; in particular any string parsing as an integer — non-positive
included — is accepted, so a non-positive count is not a parse error. -/
theorem parse_input_error_iff (s : String) :
    (parse_input s).isOk = false ↔
      (pySplitTrim '|' s).length ≠ 4 ∨
        python_int ((pySplitTrim '|' s).getD 0 "") = none := by
  unfold parse_input
  dsimp only
  split
  · rename_i hlen
    exact ⟨fun _ => Or.inl hlen, fun _ => rfl⟩
  · rename_i hlen
    cases hpi : python_int ((pySplitTrim '|' s).getD 0 "") with
    | none =>
      exact ⟨fun _ => Or.inr rfl, fun _ => rfl⟩
    | some n =>
      constructor
      · intro hfalse
        exact Bool.noConfusion hfalse
      · intro hor
        rcases hor with h4 | hnone
        · exact absurd h4 hlen
        · cases hnone

/-- C8: `generate_prompts_from_input` converts every internal failure of
the pipeline (parse error or any exception from combination generation or
rendering) into an empty result; no exception propagates. -/
theorem orchestrator_catches (s : String) (g : RandGen) (e : String)
    (h : pipeBody s g = .error e) :
    generate_prompts_from_input s g = ([], g) := by
  unfold generate_prompts_from_input
  rw [h]

/-- C8 (witness): the malformed input `"abc|Orange|dancing|garden"` makes
the pipeline fail, and the orchestrator returns the empty list. -/
theorem orchestrator_catches_witness :
    generate_prompts_from_input "abc|Orange|dancing|garden" g0 = ([], g0) :=
  orchestrator_catches "abc|Orange|dancing|garden" g0
    "ValueError: invalid literal for int" rfl

theorem getD_map_range {α : Type} (f : Nat → α) (d : α) (n i : Nat) (hi : i < n) :
    ((List.range n).map f).getD i d = f i := by
  rw [List.getD_eq_getElem _ _ (by simpa using hi)]
  simp

/-- C1: for every spec string accepted by the parser, whenever no stage of
the pipeline fails, the batch orchestrator returns exactly `max(0, count)`
rendered prompts — a non-positive count yields an empty list, not an
error. -/
theorem generateAll_length (s : String) (g : RandGen) (cfg : SceneConfig)
    (res : List String × RandGen) (h1 : parse_input s = .ok cfg)
    (h2 : pipeBody s g = .ok res) :
    ((generate_prompts_from_input s g).1.length : Int) = max 0 cfg.count := by
  have horch : generate_prompts_from_input s g = res := by
    unfold generate_prompts_from_input
    rw [h2]
  rw [horch]
  unfold pipeBody at h2
  rw [h1] at h2
  simp only [bind, Except.bind] at h2
  cases hg : generate_character_combinations cfg.char_config cfg.count g with
  | error e => rw [hg] at h2; cases h2
  | ok p =>
    obtain ⟨combos, g1⟩ := p
    rw [hg] at h2
    dsimp only at h2
    cases hr : renderAll combos cfg.actions cfg.locations 0 with
    | error e => rw [hr] at h2; cases h2
    | ok prompts =>
      rw [hr] at h2
      simp only [Except.ok.injEq] at h2
      rw [← h2]
      have hlen := renderAll_length combos cfg.actions cfg.locations 0 prompts hr
      have hclen := generate_combinations_length cfg.char_config cfg.count g
        combos g1 (parse_input_mode s cfg h1) hg
      simp only [hlen, hclen]
      omega

/-- C1 (witness): `"2|Orange|dancing|garden"` parses with count 2 and the
orchestrator yields 2 prompts. -/
theorem generateAll_length_witness :
    ((generate_prompts_from_input "2|Orange|dancing|garden" g0).1.length : Int) =
      max 0 (2 : Int) :=
  generateAll_length "2|Orange|dancing|garden" g0
    ⟨2, ⟨["Orange"], "separate", "auto", none, none⟩, ["dancing"], ["garden"]⟩
    (["Orange dancing in garden", "Orange dancing in garden"], g0) rfl rfl

/-- C7: in Separate mode with Unspecified sizing the combination generator
succeeds, consumes no randomness (the generator state is returned
untouched), and the `i`-th grouping is exactly the singleton
`[names[i % len(names)]]`, wrapping around. -/
theorem auto_mode_cyclic (names : List String) (count : Int) (g : RandGen)
    (h : names ≠ []) :
    (generate_character_combinations
        ⟨names, "separate", "auto", none, none⟩ count g).isOk = true ∧
    ∀ L g', generate_character_combinations
        ⟨names, "separate", "auto", none, none⟩ count g = .ok (L, g') →
      g' = g ∧ L.length = count.toNat ∧
      ∀ i, i < count.toNat → L.getD i [] = [names.getD (i % names.length) ""] := by
  have hlen0 : ((names.length == 0) : Bool) = false := by
    simp only [beq_eq_false_iff_ne, ne_eq]
    intro h0
    exact h (List.length_eq_zero.mp h0)
  have htr : generate_character_combinations_traced
      ⟨names, "separate", "auto", none, none⟩ count g =
      .ok ((List.range count.toNat).map
        (fun i => ([names.getD (i % names.length) ""], 0)), g) := by
    unfold generate_character_combinations_traced
    dsimp only
    rw [if_neg (by decide), if_pos (by decide), if_neg (by decide),
      if_neg (by rw [hlen0]; exact Bool.false_ne_true)]
  have hplain : generate_character_combinations
      ⟨names, "separate", "auto", none, none⟩ count g =
      .ok ((List.range count.toNat).map
        (fun i => [names.getD (i % names.length) ""]), g) := by
    unfold generate_character_combinations
    rw [htr]
    simp [Except.map, List.map_map]
  refine ⟨by rw [hplain]; rfl, ?_⟩
  intro L g' hL
  rw [hplain] at hL
  simp only [Except.ok.injEq, Prod.mk.injEq] at hL
  obtain ⟨hL1, hg'⟩ := hL
  refine ⟨hg'.symm, ?_, ?_⟩
  · rw [← hL1]
    simp
  · intro i hi
    rw [← hL1]
    exact getD_map_range _ _ _ _ hi

/-- C7 (witness): with names `["Orange", "Pigeon"]` and 3 scenes the
generator succeeds (the groupings cycle `Orange, Pigeon, Orange`). -/
theorem auto_mode_cyclic_witness :
    (generate_character_combinations
        ⟨["Orange", "Pigeon"], "separate", "auto", none, none⟩ 3 g0).isOk = true :=
  (auto_mode_cyclic ["Orange", "Pigeon"] 3 g0 (by decide)).1

/-- C3: in Separate mode with Fixed(n) sizing (bracket `[n]`), every
generated grouping has length exactly `min n (len names)` — with no
exception even at pool resets, which is stronger than the carve-out in
the claim. -/
theorem fixed_sizing_grouping_length (names : List String) (n : Nat)
    (count : Int) (g : RandGen) (L : List (List String)) (g' : RandGen)
    (_hne : names ≠ [])
    (h : generate_character_combinations
        ⟨names, "separate", "count_specified", some n, some n⟩ count g =
        .ok (L, g')) :
    ∀ c ∈ L, c.length = min n names.length := by
  unfold generate_character_combinations at h
  cases htr : generate_character_combinations_traced
      ⟨names, "separate", "count_specified", some n, some n⟩ count g with
  | error e => rw [htr] at h; cases h
  | ok p =>
    rw [htr] at h
    simp only [Except.map, Except.ok.injEq, Prod.mk.injEq] at h
    obtain ⟨hL, -⟩ := h
    unfold generate_character_combinations_traced at htr
    dsimp only at htr
    rw [if_neg (by decide), if_pos (by decide), if_pos (by decide)] at htr
    intro c hc
    rw [← hL] at hc
    obtain ⟨pe, hpe, rfl⟩ := List.mem_map.mp hc
    exact genCS_fixed_len names n count.toNat names g 0 p.1 p.2 le_rfl
      (by rw [← htr]) pe hpe

/-- C3 (witness): names `["Orange", "Pigeon"]`, sizing Fixed(1), 3 scenes:
every grouping (the run is `Orange, Pigeon, Orange`, with one reset) has
length `min 1 2 = 1`. -/
theorem fixed_sizing_grouping_length_witness :
    (["Orange"] : List String).length = min 1 (["Orange", "Pigeon"] : List String).length :=
  fixed_sizing_grouping_length ["Orange", "Pigeon"] 1 3 g0
    [["Orange"], ["Pigeon"], ["Orange"]] ⟨g0.bits, 3⟩ (by decide) rfl
    ["Orange"] (by decide)

/-- C4 (amended): in Separate mode with Fixed or Range sizing, provided the
names list contains no duplicate name, no name appears in two different
groupings drawn in the same pool epoch (same count of pool resets). -/
theorem pool_epoch_disjoint (names : List String) (mn mx : Nat) (count : Int)
    (g : RandGen) (T : List TraceEntry) (g' : RandGen) (hnd : names.Nodup)
    (h : generate_character_combinations_traced
        ⟨names, "separate", "count_specified", some mn, some mx⟩ count g =
        .ok (T, g')) :
    T.Pairwise (fun a b => a.2 = b.2 → ∀ x ∈ a.1, x ∉ b.1) := by
  unfold generate_character_combinations_traced at h
  dsimp only at h
  rw [if_neg (by decide), if_pos (by decide), if_pos (by decide)] at h
  exact genCS_pairwise names mn mx hnd count.toNat names g 0 T g' hnd h

/-- C4 (witness): names `["Orange", "Pigeon"]`, Fixed(1), 2 scenes: the two
epoch-0 groupings `["Orange"]`, `["Pigeon"]` are disjoint. -/
theorem pool_epoch_disjoint_witness :
    ([(["Orange"], 0), (["Pigeon"], 0)] : List TraceEntry).Pairwise
      (fun a b => a.2 = b.2 → ∀ x ∈ a.1, x ∉ b.1) :=
  pool_epoch_disjoint ["Orange", "Pigeon"] 1 1 2 g0
    [(["Orange"], 0), (["Pigeon"], 0)] ⟨g0.bits, 2⟩ (by decide) rfl

/-- C4 (counterexample): with the duplicated names list
`["Orange", "Orange"]` and Fixed(1) sizing, both epoch-0 groupings contain
`"Orange"` — a name repeats within one pool epoch, refuting the claim as
stated for arbitrary names lists. -/
theorem pool_epoch_repeat_cex :
    generate_character_combinations_traced
        ⟨["Orange", "Orange"], "separate", "count_specified", some 1, some 1⟩ 2 g0 =
      .ok ([(["Orange"], 0), (["Orange"], 0)], ⟨g0.bits, 2⟩) ∧
    ¬ ([(["Orange"], 0), (["Orange"], 0)] : List TraceEntry).Pairwise
      (fun a b => a.2 = b.2 → ∀ x ∈ a.1, x ∉ b.1) := by
  refine ⟨rfl, fun hp => ?_⟩
  exact (List.pairwise_cons.mp hp).1 (["Orange"], 0) (by simp) rfl "Orange"
    (by simp) (by simp)

theorem intercalate_go_nil (a s : String) : String.intercalate.go a s [] = a := rfl

theorem intercalate_go_cons (a s b : String) (l : List String) :
    String.intercalate.go a s (b :: l) =
      String.intercalate.go (a ++ s ++ b) s l := rfl

/-- C6: for a nonempty grouping of all-known characters, rendering uses the
size-dependent grammar (one name, two names with `and`, three-plus names
Oxford style) with catalog display lookup for action/location (raw token
fallback built into `dictGet`); if any name is unknown, rendering joins all
names with `" and "` and keeps the raw action/location tokens. -/
theorem render_grammar (cs : List String) (action location : String)
    (h : cs ≠ []) :
    (cs.all knownChar = true →
      generate_prompt cs action location = .ok (
        (match cs with
         | [a] => a
         | [a, b] => a ++ " and " ++ b
         | _ => String.intercalate ", " cs.dropLast ++ ", and " ++ cs.getLastD "")
        ++ " " ++ dictGet action_templates action action
        ++ " in " ++ dictGet location_templates location location)) ∧
    (cs.all knownChar = false →
      generate_prompt cs action location = .ok
        (String.intercalate " and " cs ++ " " ++ action ++ " in " ++ location)) := by
  constructor
  · intro hall
    match cs, h with
    | [a], _ =>
      have hka : knownChar a = true := by simpa using hall
      simp [generate_prompt, generate_single_character_prompt, hka]
    | [a, b], _ =>
      simp [generate_prompt, generate_multi_character_prompt, hall]
    | a :: b :: c :: rest, _ =>
      simp [generate_prompt, generate_multi_character_prompt, hall]
  · intro hall
    match cs, h with
    | [a], _ =>
      have hka : knownChar a = false := by simpa using hall
      simp [generate_prompt, generate_single_character_prompt, hka,
        String.intercalate, intercalate_go_nil]
    | a :: b :: rest, _ =>
      simp [generate_prompt, generate_multi_character_prompt, hall]

/-- C6 (witness): three known names render Oxford style with display
strings. -/
theorem render_grammar_witness :
    generate_prompt ["Orange", "Pigeon", "Orca"] "dancing" "garden" =
      .ok "Orange, Pigeon, and Orca dancing in garden" := by
  have hthm := (render_grammar ["Orange", "Pigeon", "Orca"] "dancing" "garden"
    (by decide)).1 (by decide)
  rw [hthm]
  rfl

theorem sampleAux_zero (pool : List String) (g : RandGen) :
    sampleAux 0 pool g = ([], g) := rfl

theorem removeSelected_nil (avail : List String) :
    removeSelected [] avail = avail := rfl

theorem random_sample_nil (g : RandGen) : random_sample [] 0 g = .ok ([], g) := rfl

theorem genCS_empty_groupings (mn mx : Nat) :
    ∀ (k : Nat) (g : RandGen) (e : Nat) (T : List TraceEntry) (g' : RandGen),
      genCS [] mn mx k [] g e = .ok (T, g') → ∀ p ∈ T, p.1 = [] := by
  intro k
  induction k with
  | zero =>
    intro g e T g' h p hp
    simp only [genCS, Except.ok.injEq, Prod.mk.injEq] at h
    rw [← h.1] at hp
    cases hp
  | succ k ih =>
    intro g e T g' h p hp
    obtain ⟨cc, g1, -, rest, g3, hrec, hT, -⟩ := genCS_succ_ok h
    rw [ite_self, List.length_nil, Nat.min_zero, sampleAux_zero] at hrec hT
    rw [removeSelected_nil] at hrec
    subst hT
    rcases List.mem_cons.mp hp with rfl | hp'
    · rfl
    · exact ih _ _ _ _ hrec p hp'

theorem genCS_empty_ok (mn mx : Nat) (hle : mn ≤ mx) :
    ∀ (k : Nat) (g : RandGen) (e : Nat),
      (genCS [] mn mx k [] g e).isOk = true := by
  intro k
  induction k with
  | zero => intro g e; rfl
  | succ k ih =>
    intro g e
    simp only [genCS]
    by_cases hmn : (mn == mx : Bool) = true
    · rw [if_pos hmn]
      simp only [ite_self, List.length_nil, Nat.min_zero, sampleAux_zero,
        random_sample_nil, removeSelected_nil]
      split
      · rfl
      · rename_i e' heq
        exact absurd (ih _ _) (by rw [heq]; exact fun hco => Bool.noConfusion hco)
    · rw [if_neg hmn]
      rw [randint, if_neg (by omega)]
      simp only [RandGen.next, ite_self, List.length_nil, Nat.min_zero, sampleAux_zero,
        random_sample_nil, removeSelected_nil]
      split
      · rfl
      · rename_i e' heq
        exact absurd (ih _ _) (by rw [heq]; exact fun hco => Bool.noConfusion hco)

/-- C9 (amended): with an empty names list, the combination generator
yields only empty groupings and no error in Together mode and in Separate
mode with count-specified sizing `Fixed/Range(mn ≤ mx)`; but in Separate
mode with Unspecified sizing and at least one scene it raises
`ZeroDivisionError` (`i % len(characters)` with an empty list). -/
theorem empty_names_behavior (count : Int) (g : RandGen) (dist : String)
    (mn? mx? : Option Nat) (mn mx : Nat) (hle : mn ≤ mx) :
    (generate_character_combinations ⟨[], "together", dist, mn?, mx?⟩ count g =
      .ok (List.replicate count.toNat [], g)) ∧
    ((generate_character_combinations
        ⟨[], "separate", "count_specified", some mn, some mx⟩ count g).isOk = true ∧
      ∀ L g', generate_character_combinations
          ⟨[], "separate", "count_specified", some mn, some mx⟩ count g =
          .ok (L, g') → ∀ c ∈ L, c = []) ∧
    (1 ≤ count.toNat →
      generate_character_combinations ⟨[], "separate", "auto", none, none⟩ count g =
        .error "ZeroDivisionError: integer modulo by zero") := by
  refine ⟨?_, ⟨?_, ?_⟩, ?_⟩
  · unfold generate_character_combinations generate_character_combinations_traced
    dsimp only
    rw [if_pos (by decide)]
    simp [Except.map, List.map_replicate]
  · unfold generate_character_combinations generate_character_combinations_traced
    dsimp only
    rw [if_neg (by decide), if_pos (by decide), if_pos (by decide)]
    cases hres : genCS [] mn mx count.toNat [] g 0 with
    | ok p => simp [Except.map, hres, Except.isOk, Except.toBool]
    | error e' =>
      have := genCS_empty_ok mn mx hle count.toNat g 0
      rw [hres] at this
      cases this
  · intro L g' hL
    unfold generate_character_combinations generate_character_combinations_traced at hL
    dsimp only at hL
    rw [if_neg (by decide), if_pos (by decide), if_pos (by decide)] at hL
    cases hres : genCS [] mn mx count.toNat [] g 0 with
    | error e' => rw [hres] at hL; cases hL
    | ok p =>
      rw [hres] at hL
      simp only [Except.map, Except.ok.injEq, Prod.mk.injEq] at hL
      intro c hc
      rw [← hL.1] at hc
      obtain ⟨pe, hpe, rfl⟩ := List.mem_map.mp hc
      exact genCS_empty_groupings mn mx count.toNat g 0 p.1 p.2 (by rw [← hres]) pe hpe
  · intro hcnt
    unfold generate_character_combinations generate_character_combinations_traced
    dsimp only
    rw [if_neg (by decide), if_pos (by decide), if_neg (by decide),
      if_pos (by decide), if_neg (by simp; omega)]
    rfl

/-- C9 (witness): with no names and 2 scenes, Together mode and Separate
mode with Fixed(1) sizing both return two empty groupings without error,
while Separate/Unspecified raises. -/
theorem empty_names_behavior_witness :
    (generate_character_combinations ⟨[], "together", "auto", none, none⟩ 2 g0 =
      .ok ([[], []], g0)) ∧
    (generate_character_combinations
        ⟨[], "separate", "count_specified", some 1, some 1⟩ 2 g0).isOk = true ∧
    (generate_character_combinations ⟨[], "separate", "auto", none, none⟩ 2 g0 =
      .error "ZeroDivisionError: integer modulo by zero") := by
  have H := empty_names_behavior 2 g0 "auto" none none 1 1 (by decide)
  exact ⟨H.1, H.2.1.1, H.2.2 (by decide)⟩

/-- C9 (counterexample): with an empty names list in Separate mode with
Unspecified sizing and one scene, the generator raises `ZeroDivisionError`
instead of returning an empty grouping, refuting the claim for every
mode/sizing. -/
theorem empty_names_auto_cex :
    generate_character_combinations ⟨[], "separate", "auto", none, none⟩ 1 g0 =
      .error "ZeroDivisionError: integer modulo by zero" := rfl

theorem matchCountSpec_bracket (ds1 ds2 rest : List Char)
    (h1ne : ds1 ≠ []) (h1d : ∀ a ∈ ds1, a.isDigit = true)
    (h2ne : ds2 ≠ []) (h2d : ∀ a ∈ ds2, a.isDigit = true)
    (h3 : rest.takeWhile (fun c => c ≠ '\n') ≠ []) :
    matchCountSpec ('[' :: (ds1 ++ '-' :: (ds2 ++ ']' :: rest))) =
      some (digitsVal ds1, some (digitsVal ds2),
        rest.takeWhile (fun c => c ≠ '\n')) := by
  have hts1 : (ds1 ++ '-' :: (ds2 ++ ']' :: rest)).takeWhile Char.isDigit = ds1 := by
    rw [List.takeWhile_append_of_pos h1d, List.takeWhile_cons]
    simp [Char.isDigit]
  have hds1 : (ds1 ++ '-' :: (ds2 ++ ']' :: rest)).dropWhile Char.isDigit =
      '-' :: (ds2 ++ ']' :: rest) := by
    rw [List.dropWhile_append_of_pos h1d, List.dropWhile_cons]
    simp [Char.isDigit]
  have hts2 : (ds2 ++ ']' :: rest).takeWhile Char.isDigit = ds2 := by
    rw [List.takeWhile_append_of_pos h2d, List.takeWhile_cons]
    simp [Char.isDigit]
  have hds2 : (ds2 ++ ']' :: rest).dropWhile Char.isDigit = ']' :: rest := by
    rw [List.dropWhile_append_of_pos h2d, List.dropWhile_cons]
    simp [Char.isDigit]
  have hie1 : ds1.isEmpty = false := by
    cases ds1 with
    | nil => exact absurd rfl h1ne
    | cons a l => rfl
  have hie2 : ds2.isEmpty = false := by
    cases ds2 with
    | nil => exact absurd rfl h2ne
    | cons a l => rfl
  have hie3 : (rest.takeWhile (fun c => c ≠ '\n')).isEmpty = false := by
    cases hrw : rest.takeWhile (fun c => c ≠ '\n') with
    | nil => exact absurd hrw h3
    | cons a l => rfl
  simp only [matchCountSpec, hts1, hds1, hts2, hds2, hie1, hie3, hie2,
    Bool.false_eq_true, if_false]

/-- C10 (amended): the parser copies bracket-group bounds verbatim and
enforces no constraint: for any digit groups `[a-b]` it produces
`min_chars = a` and `max_chars = b` unchanged, so `Range` sizings with
`min = 0` or `min > max` are produced (the invariant `1 ≤ min ≤ max` does
not hold). -/
theorem bracket_bounds_unvalidated (ds1 ds2 rest : List Char)
    (h1ne : ds1 ≠ []) (h1d : ∀ a ∈ ds1, a.isDigit = true)
    (h2ne : ds2 ≠ []) (h2d : ∀ a ∈ ds2, a.isDigit = true)
    (h3 : rest.takeWhile (fun c => c ≠ '\n') ≠ []) :
    (parse_characters (String.mk ('[' :: (ds1 ++ '-' :: (ds2 ++ ']' :: rest))))).min_chars =
      some (digitsVal ds1) ∧
    (parse_characters (String.mk ('[' :: (ds1 ++ '-' :: (ds2 ++ ']' :: rest))))).max_chars =
      some (digitsVal ds2) ∧
    (parse_characters (String.mk ('[' :: (ds1 ++ '-' :: (ds2 ++ ']' :: rest))))).distribution =
      "count_specified" := by
  have hm := matchCountSpec_bracket ds1 ds2 rest h1ne h1d h2ne h2d h3
  unfold parse_characters
  simp only [String.data, hm]
  exact ⟨trivial, rfl, trivial⟩

/-- C10 (witness): `[3-1]Orange` yields `min_chars = 3`, `max_chars = 1`
with count-specified distribution. -/
theorem bracket_bounds_unvalidated_witness :
    (parse_characters "[3-1]Orange").min_chars = some 3 ∧
    (parse_characters "[3-1]Orange").max_chars = some 1 ∧
    (parse_characters "[3-1]Orange").distribution = "count_specified" :=
  bracket_bounds_unvalidated ['3'] ['1'] "Orange".data
    (by decide) (by decide) (by decide) (by decide) (by decide)

/-- C10 (counterexample): `"1|[3-1]Orange|dancing|garden"` parses
successfully into a Range sizing with `min_chars = 3 > max_chars = 1`,
refuting the invariant `1 ≤ min ≤ max`. -/
theorem bracket_range_invariant_cex :
    parse_input "1|[3-1]Orange|dancing|garden" =
      .ok ⟨1, ⟨["Orange"], "separate", "count_specified", some 3, some 1⟩,
        ["dancing"], ["garden"]⟩ ∧
    ¬ ((1 : Nat) ≤ 3 ∧ (3 : Nat) ≤ 1) := ⟨rfl, by decide⟩
